import Mathlib

/-!
Verification of the MediaVue media-detection and HLS-reconstruction core.

The JavaScript sources are shallowly embedded as Lean functions:
pure string manipulation is translated directly, asynchronous I/O
(fetch, messaging) is abstracted by oracle functions passed as
parameters, and mutable per-tab state becomes explicit state passing.
Regular-expression tests are embedded as character-list scanners that
mirror the semantics of the concrete patterns appearing in the source.
-/

namespace MediaVue

/-! ### JavaScript string primitives -/

/-- Character list of a string after ASCII lowercasing; models the
case-insensitive `i` flag on the extension regexes. -/
def lowerChars (s : String) : List Char := s.toList.map Char.toLower

/-- Substring search on character lists; models `String.prototype.includes`. -/
def hasSubList (pat : List Char) : List Char → Bool
  | [] => pat.isEmpty
  | c :: cs => pat.isPrefixOf (c :: cs) || hasSubList pat cs

/-- Models `s.includes(pat)` from JavaScript. -/
def jsIncludes (s pat : String) : Bool := hasSubList pat.toList s.toList

/-- Models `s.startsWith(pre)` from JavaScript.  Implemented over the
character list so that it evaluates by kernel reduction. -/
def jsStartsWith (s pre : String) : Bool := pre.toList.isPrefixOf s.toList

/-- Models JavaScript string truthiness on a string value: the empty
string is falsy. -/
def jsIsEmpty (s : String) : Bool := s.toList.isEmpty

theorem hasSubList_iff (pat cs : List Char) : hasSubList pat cs = true ↔ pat <:+: cs := by
  induction cs with
  | nil =>
    cases pat <;> simp [hasSubList, List.isEmpty]
  | cons c cs ih =>
    simp [hasSubList, List.isPrefixOf_iff_prefix, ih, List.infix_cons_iff]

theorem jsIncludes_iff (s pat : String) :
    jsIncludes s pat = true ↔ pat.toList <:+: s.toList := by
  exact hasSubList_iff pat.toList s.toList

/-! ### media-detector.js : MEDIA_PATTERNS and getMediaType

The source tests `url` against `/\.(ext1|ext2|...)($|\?)/i`: a literal dot,
one of the listed extensions, then end of string or a question mark,
case-insensitively.  `extHere e cs` checks that `cs` begins with the
extension `e` followed by end-of-input or a question mark, and
`extSearch` scans every position of the input for a dot followed by a
matching extension, exactly as the regex engine does. -/

def extHere : List Char → List Char → Bool
  | [], [] => true
  | [], c :: _ => c == '?'
  | _ :: _, [] => false
  | e :: es, c :: cs => c == e && extHere es cs

def extSearch (exts : List (List Char)) : List Char → Bool
  | [] => false
  | c :: cs => (c == '.' && exts.any (fun e => extHere e cs)) || extSearch exts cs

def VIDEO_EXTS : List String := ["mp4", "webm", "ogv", "mov", "avi", "mkv", "flv", "m4v"]

def AUDIO_EXTS : List String := ["mp3", "wav", "m4a", "aac", "ogg", "opus", "flac", "wma"]

def STREAMING_EXTS : List String := ["m3u8", "mpd"]

def SUBTITLE_EXTS : List String := ["vtt", "srt", "ass", "ssa"]

/-- Models `MEDIA_PATTERNS.X.test(url)` for the extension list of pattern `X`. -/
def testPattern (exts : List String) (url : String) : Bool :=
  extSearch (exts.map String.toList) (lowerChars url)

/-- Embedding of `getMediaType` from `src/utils/media-detector.js`. -/
def getMediaType (url : String) : String :=
  if testPattern VIDEO_EXTS url then "video"
  else if testPattern AUDIO_EXTS url then "audio"
  else if testPattern STREAMING_EXTS url then "streaming"
  else if testPattern SUBTITLE_EXTS url then "subtitle"
  else "unknown"

/-- Embedding of `isMediaUrl` from `src/utils/media-detector.js`. -/
def isMediaUrl (url : String) : Bool := getMediaType url != "unknown"

/-- Embedding of `getHlsType` from `src/utils/media-detector.js`. -/
def getHlsType (content : String) : Option String :=
  if jsIncludes content "#EXT-X-STREAM-INF" then some "master"
  else if jsIncludes content "#EXT-X-TARGETDURATION" then some "media"
  else none

/-- Embedding of `isProtectedUrl` from `src/utils/media-detector.js`.
The argument is optional because `tab.url` can be absent in JavaScript,
and the falsy test there also treats the empty string as protected. -/
def isProtectedUrl (url : Option String) : Bool :=
  match url with
  | none => true
  | some u =>
    if jsIsEmpty u then true
    else
      jsStartsWith u "chrome://" || jsStartsWith u "chrome-extension://" ||
        jsStartsWith u "edge://" || jsStartsWith u "about:" || jsStartsWith u "view-source:"

/-- Declarative reading of one extension-pattern test: some position of the
lowercased URL carries a dot, a listed extension, and then either the end
of the string or a question mark. -/
def ExtOccurs (exts : List String) (url : String) : Prop :=
  ∃ pre e post, e ∈ exts ∧ lowerChars url = pre ++ '.' :: (e.toList ++ post) ∧
    (post = [] ∨ ∃ rest, post = '?' :: rest)

theorem extHere_iff (e cs : List Char) :
    extHere e cs = true ↔
      ∃ post, cs = e ++ post ∧ (post = [] ∨ ∃ rest, post = '?' :: rest) := by
  induction e generalizing cs with
  | nil =>
    cases cs with
    | nil => simp [extHere]
    | cons c cs =>
      simp only [extHere, beq_iff_eq, List.nil_append]
      constructor
      · intro h
        exact ⟨c :: cs, rfl, Or.inr ⟨cs, by simp [h]⟩⟩
      · rintro ⟨post, rfl, hpost⟩
        rcases hpost with h | ⟨rest, h⟩
        · exact absurd h (by simp)
        · simp only [List.cons.injEq] at h
          exact h.1
  | cons a e ih =>
    cases cs with
    | nil =>
      simp [extHere]
    | cons c cs =>
      simp only [extHere, Bool.and_eq_true, beq_iff_eq, ih]
      constructor
      · rintro ⟨rfl, post, rfl, hpost⟩
        exact ⟨post, rfl, hpost⟩
      · rintro ⟨post, hpost, hrest⟩
        simp only [List.cons_append, List.cons.injEq] at hpost
        exact ⟨hpost.1, post, hpost.2, hrest⟩

theorem extSearch_iff (exts : List (List Char)) (cs : List Char) :
    extSearch exts cs = true ↔
      ∃ pre e post, e ∈ exts ∧ cs = pre ++ '.' :: (e ++ post) ∧
        (post = [] ∨ ∃ rest, post = '?' :: rest) := by
  induction cs with
  | nil =>
    simp only [extSearch]
    constructor
    · intro h
      exact Bool.noConfusion h
    · rintro ⟨pre, e, post, _, h, _⟩
      exact absurd h (by simp)
  | cons c cs ih =>
    simp only [extSearch, Bool.or_eq_true, Bool.and_eq_true, beq_iff_eq,
      List.any_eq_true, ih]
    constructor
    · rintro (⟨rfl, e, he, hhere⟩ | ⟨pre, e, post, he, rfl, hpost⟩)
      · rcases (extHere_iff e cs).mp hhere with ⟨post, rfl, hpost⟩
        exact ⟨[], e, post, he, rfl, hpost⟩
      · exact ⟨c :: pre, e, post, he, rfl, hpost⟩
    · rintro ⟨pre, e, post, he, heq, hpost⟩
      cases pre with
      | nil =>
        simp only [List.nil_append, List.cons.injEq] at heq
        refine Or.inl ⟨heq.1, e, he, ?_⟩
        exact (extHere_iff e cs).mpr ⟨post, heq.2, hpost⟩
      | cons p pre =>
        simp only [List.cons_append, List.cons.injEq] at heq
        exact Or.inr ⟨pre, e, post, he, heq.2, hpost⟩

theorem testPattern_iff (exts : List String) (url : String) :
    testPattern exts url = true ↔ ExtOccurs exts url := by
  unfold testPattern ExtOccurs
  rw [extSearch_iff]
  constructor
  · rintro ⟨pre, e, post, he, heq, hpost⟩
    rcases List.mem_map.mp he with ⟨s, hs, rfl⟩
    exact ⟨pre, s, post, hs, heq, hpost⟩
  · rintro ⟨pre, s, post, hs, heq, hpost⟩
    exact ⟨pre, s.toList, post, List.mem_map.mpr ⟨s, hs, rfl⟩, heq, hpost⟩

/-- C6: `getMediaType` is a total deterministic function; it tries the
extension patterns in the fixed order video, audio, streaming, subtitle,
where a pattern matches exactly when some occurrence of a listed
extension is preceded by a dot and followed by end-of-string or a
question mark in the lowercased URL; the first matching pattern decides
the result and a URL matching no pattern yields "unknown".  Totality and
determinism hold because the embedding is a Lean function of the URL. -/
theorem c6_getMediaType_characterization (u : String) :
    (getMediaType u = "video" ↔ ExtOccurs VIDEO_EXTS u) ∧
    (getMediaType u = "audio" ↔
      ¬ ExtOccurs VIDEO_EXTS u ∧ ExtOccurs AUDIO_EXTS u) ∧
    (getMediaType u = "streaming" ↔
      ¬ ExtOccurs VIDEO_EXTS u ∧ ¬ ExtOccurs AUDIO_EXTS u ∧
        ExtOccurs STREAMING_EXTS u) ∧
    (getMediaType u = "subtitle" ↔
      ¬ ExtOccurs VIDEO_EXTS u ∧ ¬ ExtOccurs AUDIO_EXTS u ∧
        ¬ ExtOccurs STREAMING_EXTS u ∧ ExtOccurs SUBTITLE_EXTS u) ∧
    (getMediaType u = "unknown" ↔
      ¬ ExtOccurs VIDEO_EXTS u ∧ ¬ ExtOccurs AUDIO_EXTS u ∧
        ¬ ExtOccurs STREAMING_EXTS u ∧ ¬ ExtOccurs SUBTITLE_EXTS u) := by
  rw [← testPattern_iff, ← testPattern_iff, ← testPattern_iff, ← testPattern_iff]
  unfold getMediaType
  cases hv : testPattern VIDEO_EXTS u <;>
    cases ha : testPattern AUDIO_EXTS u <;>
      cases hs : testPattern STREAMING_EXTS u <;>
        cases ht : testPattern SUBTITLE_EXTS u <;>
          refine ⟨?_, ?_, ?_, ?_, ?_⟩ <;> simp

/-- C7: manifest-role classification returns "master" whenever the content
contains the master-playlist marker, even when the media-playlist marker is
also present; it returns "media" when only the media marker is present,
and no classification when neither marker occurs. -/
theorem c7_getHlsType_priority (content : String) :
    (("#EXT-X-STREAM-INF".toList <:+: content.toList) →
      getHlsType content = some "master") ∧
    (¬ ("#EXT-X-STREAM-INF".toList <:+: content.toList) →
      ("#EXT-X-TARGETDURATION".toList <:+: content.toList) →
        getHlsType content = some "media") ∧
    (¬ ("#EXT-X-STREAM-INF".toList <:+: content.toList) →
      ¬ ("#EXT-X-TARGETDURATION".toList <:+: content.toList) →
        getHlsType content = none) := by
  unfold getHlsType
  refine ⟨fun h => ?_, fun h1 h2 => ?_, fun h1 h2 => ?_⟩
  · rw [if_pos]
    exact (jsIncludes_iff content "#EXT-X-STREAM-INF").mpr h
  · rw [if_neg, if_pos]
    · exact (jsIncludes_iff content "#EXT-X-TARGETDURATION").mpr h2
    · simp only [jsIncludes_iff]
      exact h1
  · rw [if_neg, if_neg]
    · simp only [jsIncludes_iff]
      exact h2
    · simp only [jsIncludes_iff]
      exact h1

/-- Witness for C7 at a concrete content prefix containing both the master
marker and the media marker: the master classification wins. -/
theorem c7_getHlsType_priority_witness :
    getHlsType "#EXT-X-TARGETDURATION:10\n#EXT-X-STREAM-INF:BANDWIDTH=1" =
      some "master" :=
  (c7_getHlsType_priority "#EXT-X-TARGETDURATION:10\n#EXT-X-STREAM-INF:BANDWIDTH=1").1
    (by decide)

/-! ### Background script: per-tab Observation Store

The `chrome.webRequest.onBeforeRequest` listener keeps, per tab, a list
of observations `{url, type, source, timestamp}`; it appends a new entry
only when the URL is media and not already cached, and evicts the front
entry (`shift`) when the list grows beyond 100 entries. -/

structure Observation where
  url : String
  type : String
  source : String
  timestamp : Nat
deriving DecidableEq

structure NetRequest where
  tabId : Int
  url : String
  timestamp : Nat
deriving DecidableEq

/-- The cache update performed by the listener once a media URL for this
tab was observed: duplicate check, push, bound-and-evict. -/
def cacheAppend (cache : List Observation) (obs : Observation) : List Observation :=
  if cache.any (fun item => item.url == obs.url) then cache
  else
    let cache2 := cache ++ [obs]
    if cache2.length > 100 then cache2.tail else cache2

/-- Embedding of the `onBeforeRequest` listener body for one tab. -/
def onBeforeRequest (cache : List Observation) (req : NetRequest) : List Observation :=
  if req.tabId < 0 then cache
  else if jsStartsWith req.url "blob:" then cache
  else if isMediaUrl req.url then
    cacheAppend cache
      { url := req.url, type := getMediaType req.url, source := "network",
        timestamp := req.timestamp }
  else cache

/-- The Observation Store of a tab after a sequence of network requests,
starting from the lazily created empty store. -/
def runRequests (cache : List Observation) (reqs : List NetRequest) : List Observation :=
  reqs.foldl onBeforeRequest cache

theorem cacheAppend_length_le (cache : List Observation) (obs : Observation)
    (h : cache.length ≤ 100) : (cacheAppend cache obs).length ≤ 100 := by
  unfold cacheAppend
  split
  · exact h
  · show (if (cache ++ [obs]).length > 100 then (cache ++ [obs]).tail
      else cache ++ [obs]).length ≤ 100
    by_cases h2 : (cache ++ [obs]).length > 100
    · rw [if_pos h2]
      simp only [List.length_tail, List.length_append, List.length_singleton]
      omega
    · rw [if_neg h2]
      simp only [List.length_append, List.length_singleton] at h2 ⊢
      omega

theorem onBeforeRequest_length_le (cache : List Observation) (req : NetRequest)
    (h : cache.length ≤ 100) : (onBeforeRequest cache req).length ≤ 100 := by
  unfold onBeforeRequest
  split
  · exact h
  · split
    · exact h
    · split
      · exact cacheAppend_length_le _ _ h
      · exact h

theorem runRequests_length_le (reqs : List NetRequest) (cache : List Observation)
    (h : cache.length ≤ 100) : (runRequests cache reqs).length ≤ 100 := by
  induction reqs generalizing cache with
  | nil => exact h
  | cons r rs ih => exact ih _ (onBeforeRequest_length_le cache r h)

/-- C4: starting from a store within the 100-entry bound, any volume of
network observation events leaves the Observation Store within the bound,
and when an append overflows the bound the evicted entry is the front
(oldest) one: a full store with a fresh URL appended becomes its tail
followed by the new entry (strict FIFO eviction). -/
theorem c4_store_bounded_fifo (reqs : List NetRequest) (cache : List Observation)
    (obs : Observation) (hlen : cache.length ≤ 100) :
    (runRequests cache reqs).length ≤ 100 ∧
    (cacheAppend cache obs).length ≤ 100 ∧
    (cache.length = 100 →
      cache.any (fun item => item.url == obs.url) = false →
      cacheAppend cache obs = cache.tail ++ [obs]) := by
  refine ⟨runRequests_length_le reqs cache hlen, cacheAppend_length_le cache obs hlen,
    fun hfull hdup => ?_⟩
  unfold cacheAppend
  rw [if_neg (by simp [hdup])]
  show (if (cache ++ [obs]).length > 100 then (cache ++ [obs]).tail
    else cache ++ [obs]) = cache.tail ++ [obs]
  rw [if_pos (by simp [hfull])]
  cases cache with
  | nil => simp at hfull
  | cons a t => simp

/-- Concrete observation used by the C4 witness. -/
def mkObs (n : Nat) : Observation :=
  { url := Nat.repr n, type := "video", source := "network", timestamp := n }

/-- A full (100-entry) store with pairwise distinct URLs. -/
def witCacheC4 : List Observation := (List.range 100).map mkObs

/-- Witness for C4: on a concrete full store, an append of a fresh URL
keeps the bound and evicts exactly the oldest entry. -/
theorem c4_store_bounded_fifo_witness :
    (runRequests witCacheC4 []).length ≤ 100 ∧
    cacheAppend witCacheC4 (mkObs 100) = witCacheC4.tail ++ [mkObs 100] :=
  ⟨(c4_store_bounded_fifo [] witCacheC4 (mkObs 100) (by decide)).1,
   (c4_store_bounded_fifo [] witCacheC4 (mkObs 100) (by decide)).2.2
     (by decide) (by decide)⟩

/-! ### url-utils.js deduplicateMedia and background mergeAndDeduplicate -/

/-- The seen-set filter underlying `deduplicateMedia`: keep an item only
when its URL has not appeared before. -/
def dedupGo (seen : List String) : List Observation → List Observation
  | [] => []
  | x :: xs =>
    if seen.contains x.url then dedupGo seen xs
    else x :: dedupGo (x.url :: seen) xs

/-- Embedding of `deduplicateMedia` from `src/utils/url-utils.js`. -/
def deduplicateMedia (medialist : List Observation) : List Observation :=
  dedupGo [] medialist

/-- The `addIfUnique` loop of `mergeAndDeduplicate`, threading the seen
set and the accumulated merged list. -/
def mergeGo (seen : List String) (merged : List Observation) :
    List Observation → List String × List Observation
  | [] => (seen, merged)
  | x :: xs =>
    if seen.contains x.url then mergeGo seen merged xs
    else mergeGo (x.url :: seen) (merged ++ [x]) xs

/-- Embedding of `mergeAndDeduplicate` from the background script: DOM
results are folded in first, then network results, keeping the first
occurrence of each URL. -/
def mergeAndDeduplicate (dom network : List Observation) : List Observation :=
  let s := mergeGo [] [] dom
  (mergeGo s.1 s.2 network).2

theorem dedupGo_nil (seen : List String) : dedupGo seen [] = [] := rfl

theorem dedupGo_cons (seen : List String) (x : Observation) (xs : List Observation) :
    dedupGo seen (x :: xs) =
      if seen.contains x.url then dedupGo seen xs
      else x :: dedupGo (x.url :: seen) xs := rfl

theorem mergeGo_nil (seen : List String) (merged : List Observation) :
    mergeGo seen merged [] = (seen, merged) := rfl

theorem mergeGo_cons (seen : List String) (merged : List Observation)
    (x : Observation) (xs : List Observation) :
    mergeGo seen merged (x :: xs) =
      if seen.contains x.url then mergeGo seen merged xs
      else mergeGo (x.url :: seen) (merged ++ [x]) xs := rfl

theorem mergeGo_snd (l : List Observation) (seen : List String)
    (merged : List Observation) :
    (mergeGo seen merged l).2 = merged ++ dedupGo seen l := by
  induction l generalizing seen merged with
  | nil => simp [mergeGo_nil, dedupGo_nil]
  | cons x xs ih =>
    rw [mergeGo_cons, dedupGo_cons]
    by_cases hc : seen.contains x.url = true
    · rw [if_pos hc, if_pos hc, ih]
    · rw [if_neg hc, if_neg hc, ih (x.url :: seen) (merged ++ [x]), List.append_assoc]
      rfl

theorem mergeGo_fst (l : List Observation) (seen : List String)
    (m1 m2 : List Observation) :
    (mergeGo seen m1 l).1 = (mergeGo seen m2 l).1 := by
  induction l generalizing seen m1 m2 with
  | nil => rfl
  | cons x xs ih =>
    rw [mergeGo_cons, mergeGo_cons]
    by_cases hc : seen.contains x.url = true
    · rw [if_pos hc, if_pos hc]
      exact ih seen m1 m2
    · rw [if_neg hc, if_neg hc]
      exact ih (x.url :: seen) (m1 ++ [x]) (m2 ++ [x])

theorem dedupGo_append (a b : List Observation) (seen : List String) :
    dedupGo seen (a ++ b) = dedupGo seen a ++ dedupGo (mergeGo seen [] a).1 b := by
  induction a generalizing seen with
  | nil => simp [mergeGo_nil, dedupGo_nil]
  | cons x xs ih =>
    rw [List.cons_append, dedupGo_cons, dedupGo_cons, mergeGo_cons]
    by_cases hc : seen.contains x.url = true
    · rw [if_pos hc, if_pos hc, if_pos hc, ih]
    · rw [if_neg hc, if_neg hc, if_neg hc, ih (x.url :: seen), List.cons_append]
      rw [mergeGo_fst xs (x.url :: seen) ([] ++ [x]) []]

theorem mergeGo_seen_mono (l : List Observation) (seen : List String)
    (merged : List Observation) (u : String) (h : seen.contains u = true) :
    ((mergeGo seen merged l).1).contains u = true := by
  induction l generalizing seen merged with
  | nil => exact h
  | cons x xs ih =>
    rw [mergeGo_cons]
    by_cases hc : seen.contains x.url = true
    · rw [if_pos hc]
      exact ih seen merged h
    · rw [if_neg hc]
      refine ih (x.url :: seen) (merged ++ [x]) ?_
      simp only [List.contains_cons, Bool.or_eq_true]
      exact Or.inr h

theorem mergeGo_seen_mem (l : List Observation) (seen : List String)
    (merged : List Observation) (x : Observation) (hx : x ∈ l) :
    ((mergeGo seen merged l).1).contains x.url = true := by
  induction l generalizing seen merged with
  | nil => cases hx
  | cons y ys ih =>
    rw [mergeGo_cons]
    by_cases hc : seen.contains y.url = true
    · rw [if_pos hc]
      rcases List.mem_cons.mp hx with rfl | hmem
      · exact mergeGo_seen_mono ys seen merged x.url hc
      · exact ih seen merged hmem
    · rw [if_neg hc]
      rcases List.mem_cons.mp hx with rfl | hmem
      · refine mergeGo_seen_mono ys (x.url :: seen) (merged ++ [x]) x.url ?_
        simp
      · exact ih (y.url :: seen) (merged ++ [y]) hmem

theorem dedupGo_nil_of_all_seen (l : List Observation) (seen : List String)
    (h : ∀ x ∈ l, seen.contains x.url = true) : dedupGo seen l = [] := by
  induction l with
  | nil => rfl
  | cons x xs ih =>
    rw [dedupGo_cons, if_pos (h x (List.mem_cons_self x xs))]
    exact ih fun y hy => h y (List.mem_cons_of_mem x hy)

/-- C9: the merge-and-deduplicate step is idempotent with respect to
self-concatenation: merging a list with itself, or deduplicating the
concatenation of a list with itself, both yield exactly the URL-keyed
deduplication of the single list, keeping first occurrences in order. -/
theorem c9_merge_idempotent (L : List Observation) :
    mergeAndDeduplicate L L = deduplicateMedia L ∧
    deduplicateMedia (L ++ L) = deduplicateMedia L ∧
    mergeAndDeduplicate L [] = deduplicateMedia L := by
  have hsecond : dedupGo (mergeGo [] [] L).1 L = [] :=
    dedupGo_nil_of_all_seen L _ fun x hx => mergeGo_seen_mem L [] [] x hx
  refine ⟨?_, ?_, ?_⟩
  · show (mergeGo (mergeGo [] [] L).1 (mergeGo [] [] L).2 L).2 = deduplicateMedia L
    rw [mergeGo_snd L, hsecond, List.append_nil, mergeGo_snd L, List.nil_append]
    rfl
  · show dedupGo [] (L ++ L) = deduplicateMedia L
    rw [dedupGo_append, hsecond, List.append_nil]
    rfl
  · show (mergeGo (mergeGo [] [] L).1 (mergeGo [] [] L).2 []).2 = deduplicateMedia L
    rw [mergeGo_nil]
    show (mergeGo [] [] L).2 = deduplicateMedia L
    rw [mergeGo_snd L, List.nil_append]
    rfl

/-! ### Background script: scan_page message handler

The handler checks the tab id, looks the tab up, rejects protected
URLs, then injects the content script, reads the Observation Store
snapshot, merges, enriches, and responds.  Tab lookup, injection
success, the DOM scan response, and the enrichment pass are oracles;
the trace records whether the store was read and whether injection was
attempted. -/

structure TabInfo where
  url : Option String
deriving DecidableEq

inductive ScanResponse where
  | failure (msg : String)
  | results (items : List Observation)
deriving DecidableEq

structure ScanEffects where
  storeRead : Bool
  injectionAttempted : Bool
deriving DecidableEq

/-- Embedding of the `scan_page` handler from the background script. -/
def handleScanPage (tabId : Option Int) (tab : Option TabInfo) (injectOk : Bool)
    (domMedia : Option (List Observation)) (store : List Observation)
    (enrich : List Observation → List Observation) : ScanResponse × ScanEffects :=
  match tabId with
  | none => (.failure "No tab ID specified", ⟨false, false⟩)
  | some _ =>
    match tab with
    | none => (.failure "Unable to access tab information.", ⟨false, false⟩)
    | some t =>
      if isProtectedUrl t.url then
        (.failure "Extension cannot scan protected browser pages (like chrome:// URLs).",
          ⟨false, false⟩)
      else if injectOk then
        (.results (enrich (mergeAndDeduplicate (domMedia.getD []) store)),
          ⟨true, true⟩)
      else
        (.failure "Failed to scan page. Extension may not have access to this page.",
          ⟨false, true⟩)

/-- C5: scanning a tab whose URL is protected (internal, extension, or
view-source scheme) answers with the protected-page error, the
Observation Store is not read, and no script injection is attempted. -/
theorem c5_protected_scan_rejected (tabId : Int) (t : TabInfo) (injectOk : Bool)
    (domMedia : Option (List Observation)) (store : List Observation)
    (enrich : List Observation → List Observation)
    (hp : isProtectedUrl t.url = true) :
    handleScanPage (some tabId) (some t) injectOk domMedia store enrich =
      (.failure "Extension cannot scan protected browser pages (like chrome:// URLs).",
        ⟨false, false⟩) := by
  simp [handleScanPage, hp]

/-- Witness for C5 at a concrete internal URL. -/
theorem c5_protected_scan_rejected_witness :
    handleScanPage (some 1) (some ⟨some "chrome://settings"⟩) true none [] id =
      (.failure "Extension cannot scan protected browser pages (like chrome:// URLs).",
        ⟨false, false⟩) :=
  c5_protected_scan_rejected 1 ⟨some "chrome://settings"⟩ true none [] id (by decide)

/-! ### More JavaScript string primitives: split and trim -/

/-- Line splitting on the newline character; models `text.split` with a
newline separator, including the empty trailing piece behaviour. -/
def splitLinesChars : List Char → List (List Char)
  | [] => [[]]
  | c :: cs =>
    match splitLinesChars cs with
    | [] => [[c]]
    | l :: ls => if c == '\n' then [] :: l :: ls else (c :: l) :: ls

/-- Models `text.split` at newlines as used throughout the sources. -/
def splitLines (s : String) : List String := (splitLinesChars s.toList).map String.mk

/-- ASCII whitespace test used by the `trim` model. -/
def wsp (c : Char) : Bool := c == ' ' || c == '\t' || c == '\n' || c == '\r'

/-- Models `s.trim()`: strip leading and trailing whitespace. -/
def jsTrim (s : String) : String :=
  String.mk (((s.toList.dropWhile wsp).reverse.dropWhile wsp).reverse)

/-! ### Background enrichment: calculateHlsDuration (part_003)

`calculateHlsDuration` walks the manifest lines; on each line starting
with the EXTINF tag it matches the regex capturing a maximal run of
digits and dots right after the tag and adds `parseFloat` of the capture
to the running total.  JavaScript numbers are modelled as exact
rationals, and the NaN that `parseFloat` can produce (and which then
absorbs the whole sum) is modelled by `none`.  To keep the character
processing separate from rational arithmetic, the parser first produces
the integer part, fraction digits and fraction length as naturals. -/

def isDigitOrDot (c : Char) : Bool := c.isDigit || c == '.'

def digitsToNat (cs : List Char) : Nat :=
  cs.foldl (fun acc c => 10 * acc + (c.toNat - 48)) 0

/-- The decimal prefix accepted by `parseFloat` on input drawn from the
regex class of digits and dots: integer digits, an optional dot, then
fraction digits.  `none` models NaN (no leading numeric prefix). -/
def parseFloatParts (cs : List Char) : Option (Nat × Nat × Nat) :=
  let intPart := cs.takeWhile Char.isDigit
  let rest := cs.drop intPart.length
  match rest with
  | '.' :: rest2 =>
    let fracPart := rest2.takeWhile Char.isDigit
    if intPart.isEmpty && fracPart.isEmpty then none
    else some (digitsToNat intPart, digitsToNat fracPart, fracPart.length)
  | _ => if intPart.isEmpty then none else some (digitsToNat intPart, 0, 0)

/-- Rational value of a parsed decimal: integer part plus fraction. -/
def ratOfParts (p : Nat × Nat × Nat) : ℚ := (p.1 : ℚ) + (p.2.1 : ℚ) / (10 : ℚ) ^ p.2.2

/-- Models `parseFloat` on the captured numeral; `none` is NaN. -/
def parseFloatQ (cs : List Char) : Option ℚ := (parseFloatParts cs).map ratOfParts

/-- The regex match at one position: the literal EXTINF tag (8 characters)
followed by a nonempty maximal run of digits and dots, which is the
capture group. -/
def matchExtinfAt (cs : List Char) : Option (List Char) :=
  if "#EXTINF:".toList.isPrefixOf cs then
    let cap := (cs.drop 8).takeWhile isDigitOrDot
    if cap.isEmpty then none else some cap
  else none

/-- The regex engine scan: try the EXTINF pattern at every position from
the left, returning the first capture. -/
def searchExtinf : List Char → Option (List Char)
  | [] => none
  | c :: cs =>
    match matchExtinfAt (c :: cs) with
    | some cap => some cap
    | none => searchExtinf cs

/-- One fold step of `calculateHlsDuration` over a manifest line. -/
def durStep (total : Option ℚ) (line : String) : Option ℚ :=
  if jsStartsWith line "#EXTINF:" then
    match searchExtinf line.toList with
    | some cap =>
      match total, parseFloatQ cap with
      | some t, some v => some (t + v)
      | _, _ => none
    | none => total
  else total

/-- Embedding of `calculateHlsDuration` from the background script. -/
def calculateHlsDuration (manifestContent : String) : Option ℚ :=
  (splitLines manifestContent).foldl durStep (some 0)

/-- Embedding of `fetchHlsContent` from the background script applied to
the playlist text the network returns: only the first 1024 characters
are kept. -/
def fetchHlsContent (fullText : String) : String := String.mk (fullText.toList.take 1024)

/-- The duration field the enrichment attaches to a streaming item whose
playlist text is `fullText`, mirroring the guarded block of
`enrichResults`: the fetched 1024-character prefix is classified with
`getHlsType`; only when it classifies does the block run; for the media
role the duration is `calculateHlsDuration` of that prefix, for the
master role it is the value obtained from the first sub-playlist fetch
(an oracle here, `some 0` when nothing was fetched, `none` for NaN); the
field `item.duration` is set only when the computed duration is a
positive number.  The result is the final value of `item.duration`
(`none` means the field is left unset). -/
def enrichedDuration (masterDur : Option ℚ) (fullText : String) : Option ℚ :=
  match getHlsType (fetchHlsContent fullText) with
  | none => none
  | some t =>
    match (if t == "media" then calculateHlsDuration (fetchHlsContent fullText)
           else if t == "master" then masterDur
           else some 0) with
    | some d => if 0 < d then some d else none
    | none => none

/-- The capture group of the EXTINF regex on a line that starts with the
tag: the maximal digits-and-dots run after the 8-character tag. -/
def lineCap (line : String) : List Char := (line.toList.drop 8).takeWhile isDigitOrDot

/-- Spec reading of one EXTINF line (refinement target for C2, following
the words of the specification): the duration declared by the line. -/
def specDeclaredDuration (line : String) : Option ℚ :=
  if jsStartsWith line "#EXTINF:" then parseFloatQ (lineCap line) else none

/-- Spec reading of the total duration of a playlist (refinement target
for C2): the sum of the per-segment durations declared on all EXTINF
lines of the given content. -/
def specTotalDuration (content : String) : ℚ :=
  ((splitLines content).filterMap specDeclaredDuration).sum

theorem matchExtinfAt_append (rest : List Char)
    (hcap : (rest.takeWhile isDigitOrDot).isEmpty = false) :
    matchExtinfAt ("#EXTINF:".toList ++ rest) = some (rest.takeWhile isDigitOrDot) := by
  unfold matchExtinfAt
  rw [if_pos (List.isPrefixOf_iff_prefix.mpr ⟨rest, rfl⟩)]
  have hdrop : ("#EXTINF:".toList ++ rest).drop 8 = rest := by
    have h8 : ("#EXTINF:".toList).length = 8 := rfl
    rw [← h8, List.drop_left]
  simp only [hdrop]
  rw [if_neg (by simp [hcap])]

theorem searchExtinf_extinf (rest : List Char)
    (hcap : (rest.takeWhile isDigitOrDot).isEmpty = false) :
    searchExtinf ("#EXTINF:".toList ++ rest) = some (rest.takeWhile isDigitOrDot) := by
  have h2 : searchExtinf ("#EXTINF:".toList ++ rest) =
      match matchExtinfAt ("#EXTINF:".toList ++ rest) with
      | some cap => some cap
      | none => searchExtinf ("EXTINF:".toList ++ rest) := rfl
  rw [h2, matchExtinfAt_append rest hcap]

theorem searchExtinf_line (line : String) (hs : jsStartsWith line "#EXTINF:" = true)
    (hcap : (lineCap line).isEmpty = false) :
    searchExtinf line.toList = some (lineCap line) := by
  obtain ⟨rest, hrest⟩ := List.isPrefixOf_iff_prefix.mp hs
  have hdrop : line.toList.drop 8 = rest := by
    rw [← hrest]
    have h8 : ("#EXTINF:".toList).length = 8 := rfl
    rw [← h8, List.drop_left]
  have hlc : lineCap line = rest.takeWhile isDigitOrDot := by
    unfold lineCap
    rw [hdrop]
  rw [hlc] at hcap ⊢
  rw [← hrest]
  exact searchExtinf_extinf rest hcap

theorem durStep_extinf (q : ℚ) (line : String) (p : Nat × Nat × Nat)
    (hs : jsStartsWith line "#EXTINF:" = true)
    (hcap : (lineCap line).isEmpty = false)
    (hp : parseFloatParts (lineCap line) = some p) :
    durStep (some q) line = some (q + ratOfParts p) := by
  unfold durStep
  rw [if_pos hs, searchExtinf_line line hs hcap]
  show (match some q, parseFloatQ (lineCap line) with
    | some t, some v => some (t + v)
    | _, _ => none) = some (q + ratOfParts p)
  rw [show parseFloatQ (lineCap line) = some (ratOfParts p) from by
    unfold parseFloatQ
    rw [hp]
    rfl]

theorem durStep_skip (total : Option ℚ) (line : String)
    (hs : jsStartsWith line "#EXTINF:" = false) : durStep total line = total := by
  unfold durStep
  rw [if_neg (by simp [hs])]

theorem foldl_durStep (lines : List String) (q : ℚ)
    (hw : ∀ line ∈ lines, jsStartsWith line "#EXTINF:" = true →
      (lineCap line).isEmpty = false ∧ parseFloatParts (lineCap line) ≠ none) :
    lines.foldl durStep (some q) =
      some (q + (lines.filterMap specDeclaredDuration).sum) := by
  induction lines generalizing q with
  | nil => simp
  | cons line ls ih =>
    have hwtail : ∀ l ∈ ls, jsStartsWith l "#EXTINF:" = true →
        (lineCap l).isEmpty = false ∧ parseFloatParts (lineCap l) ≠ none :=
      fun l hl => hw l (List.mem_cons_of_mem line hl)
    by_cases hs : jsStartsWith line "#EXTINF:" = true
    · obtain ⟨hcap, hparse⟩ := hw line (List.mem_cons_self line ls) hs
      obtain ⟨p, hp⟩ := Option.ne_none_iff_exists'.mp hparse
      rw [List.foldl_cons, durStep_extinf q line p hs hcap hp, ih (q + ratOfParts p) hwtail,
        List.filterMap_cons_some (by
          unfold specDeclaredDuration parseFloatQ
          rw [if_pos hs, hp]
          rfl)]
      rw [List.sum_cons, add_assoc]
    · have hs2 : jsStartsWith line "#EXTINF:" = false := by
        cases h : jsStartsWith line "#EXTINF:"
        · rfl
        · exact absurd h hs
      rw [List.foldl_cons, durStep_skip (some q) line hs2, ih q hwtail,
        List.filterMap_cons_none (by
          unfold specDeclaredDuration
          rw [if_neg (by simp [hs2])])]

theorem calculateHlsDuration_eq_spec (content : String)
    (hw : ∀ line ∈ splitLines content,
      jsStartsWith line "#EXTINF:" = true →
        (lineCap line).isEmpty = false ∧ parseFloatParts (lineCap line) ≠ none) :
    calculateHlsDuration content = some (specTotalDuration content) := by
  unfold calculateHlsDuration specTotalDuration
  rw [foldl_durStep _ 0 hw, zero_add]

/-- C2 (amended): for a streaming item whose fetched manifest content
classifies as a media playlist, the enrichment sets the item duration to
the sum of the per-segment EXTINF durations declared within the fetched
content, which is only the first 1024 characters of the playlist
(assuming each EXTINF line of that prefix declares a well-formed numeral
and the prefix sum is positive, since the source only assigns a positive
duration); when the whole playlist fits in the prefix this is the total
declared duration. -/
theorem c2_duration_prefix_sum (masterDur : Option ℚ) (fullText : String)
    (hmedia : getHlsType (fetchHlsContent fullText) = some "media")
    (hw : ∀ line ∈ splitLines (fetchHlsContent fullText),
      jsStartsWith line "#EXTINF:" = true →
        (lineCap line).isEmpty = false ∧ parseFloatParts (lineCap line) ≠ none)
    (hpos : 0 < specTotalDuration (fetchHlsContent fullText)) :
    enrichedDuration masterDur fullText =
      some (specTotalDuration (fetchHlsContent fullText)) := by
  unfold enrichedDuration
  rw [hmedia]
  dsimp only
  rw [if_pos (by decide), calculateHlsDuration_eq_spec _ hw]
  dsimp only
  rw [if_pos hpos]

/-- The example media playlist of the specification: three EXTINF lines
declaring 5.0, 4.5 and 10.333 seconds. -/
def c2Example : String :=
  "#EXTM3U\n#EXT-X-TARGETDURATION:11\n#EXTINF:5.0,\nseg1.ts\n#EXTINF:4.5,\nseg2.ts\n#EXTINF:10.333,\nseg3.ts"

/-- A media playlist longer than 1024 characters: the media-playlist
marker `#EXT-X-TARGETDURATION` lies inside the first 1024 characters
(so the fetched prefix classifies as a media playlist), while the only
EXTINF line lies entirely beyond the first 1024 characters, hidden
behind a long comment line. -/
def c2LongPlaylist : String :=
  "#EXTM3U\n#EXT-X-TARGETDURATION:11\n" ++ String.mk ('#' :: List.replicate 1100 'x') ++
    "\n#EXTINF:5.0,\nseg.ts"

/-- The first 1024 characters of `c2LongPlaylist`. -/
def c2LongPrefix : String :=
  "#EXTM3U\n#EXT-X-TARGETDURATION:11\n" ++ String.mk ('#' :: List.replicate 990 'x')

set_option maxRecDepth 40000 in
/-- Counterexample to C2 as stated: the fetched 1024-character prefix of
this playlist classifies as a media playlist, so the enrichment runs its
duration computation, but it sums only the EXTINF lines of the truncated
prefix, finds none, computes 0 and leaves the duration unset, while the
sum of all EXTINF durations declared by the playlist is 5; hence the
enrichment does not set the duration to the sum over the whole
playlist. -/
theorem c2_truncation_counterexample :
    getHlsType (fetchHlsContent c2LongPlaylist) = some "media" ∧
    enrichedDuration none c2LongPlaylist = none ∧
    specTotalDuration c2LongPlaylist = 5 ∧
    enrichedDuration none c2LongPlaylist ≠ some (specTotalDuration c2LongPlaylist) := by
  have h0 : fetchHlsContent c2LongPlaylist = c2LongPrefix := by decide
  have h1 : getHlsType c2LongPrefix = some "media" := by decide
  have hsplit : splitLines c2LongPrefix =
      ["#EXTM3U", "#EXT-X-TARGETDURATION:11",
        String.mk ('#' :: List.replicate 990 'x')] := by decide
  have h2 : calculateHlsDuration c2LongPrefix = some 0 := by
    unfold calculateHlsDuration
    rw [hsplit, List.foldl_cons, durStep_skip _ _ (by decide),
      List.foldl_cons, durStep_skip _ _ (by decide),
      List.foldl_cons, durStep_skip _ _ (by decide), List.foldl_nil]
  have h3 : enrichedDuration none c2LongPlaylist = none := by
    unfold enrichedDuration
    rw [h0, h1]
    dsimp only
    rw [if_pos (by decide), h2]
    dsimp only
    rw [if_neg (lt_irrefl 0)]
  have hlines : splitLines c2LongPlaylist =
      ["#EXTM3U", "#EXT-X-TARGETDURATION:11",
        String.mk ('#' :: List.replicate 1100 'x'), "#EXTINF:5.0,", "seg.ts"] := by decide
  have h4 : specTotalDuration c2LongPlaylist = 5 := by
    unfold specTotalDuration
    rw [hlines,
      List.filterMap_cons_none (show specDeclaredDuration "#EXTM3U" = none from by decide),
      List.filterMap_cons_none
        (show specDeclaredDuration "#EXT-X-TARGETDURATION:11" = none from by decide),
      List.filterMap_cons_none
        (show specDeclaredDuration (String.mk ('#' :: List.replicate 1100 'x')) = none from
          by decide),
      List.filterMap_cons_some
        (show specDeclaredDuration "#EXTINF:5.0," = some (ratOfParts (5, 0, 1)) from by
          unfold specDeclaredDuration parseFloatQ
          rw [if_pos (by decide),
            show parseFloatParts (lineCap "#EXTINF:5.0,") = some (5, 0, 1) from by decide]
          rfl),
      List.filterMap_cons_none (show specDeclaredDuration "seg.ts" = none from by decide),
      List.filterMap_nil, List.sum_cons, List.sum_nil]
    norm_num [ratOfParts]
  refine ⟨by rw [h0]; exact h1, h3, h4, ?_⟩
  rw [h3, h4]
  exact fun hc => Option.noConfusion hc

/-- Witness for the amended C2 on the example playlist of the
specification: its prefix classifies as a media playlist and the
computed duration is exactly 19.833 seconds. -/
theorem c2_duration_prefix_sum_witness :
    enrichedDuration none c2Example = some (19833 / 1000 : ℚ) := by
  have h2 : splitLines (fetchHlsContent c2Example) =
      ["#EXTM3U", "#EXT-X-TARGETDURATION:11", "#EXTINF:5.0,", "seg1.ts",
        "#EXTINF:4.5,", "seg2.ts", "#EXTINF:10.333,", "seg3.ts"] := by decide
  have hspec : specTotalDuration (fetchHlsContent c2Example) = 19833 / 1000 := by
    unfold specTotalDuration
    rw [h2,
      List.filterMap_cons_none (show specDeclaredDuration "#EXTM3U" = none from by decide),
      List.filterMap_cons_none
        (show specDeclaredDuration "#EXT-X-TARGETDURATION:11" = none from by decide),
      List.filterMap_cons_some
        (show specDeclaredDuration "#EXTINF:5.0," = some (ratOfParts (5, 0, 1)) from by
          unfold specDeclaredDuration parseFloatQ
          rw [if_pos (by decide),
            show parseFloatParts (lineCap "#EXTINF:5.0,") = some (5, 0, 1) from by decide]
          rfl),
      List.filterMap_cons_none (show specDeclaredDuration "seg1.ts" = none from by decide),
      List.filterMap_cons_some
        (show specDeclaredDuration "#EXTINF:4.5," = some (ratOfParts (4, 5, 1)) from by
          unfold specDeclaredDuration parseFloatQ
          rw [if_pos (by decide),
            show parseFloatParts (lineCap "#EXTINF:4.5,") = some (4, 5, 1) from by decide]
          rfl),
      List.filterMap_cons_none (show specDeclaredDuration "seg2.ts" = none from by decide),
      List.filterMap_cons_some
        (show specDeclaredDuration "#EXTINF:10.333," = some (ratOfParts (10, 333, 3)) from by
          unfold specDeclaredDuration parseFloatQ
          rw [if_pos (by decide),
            show parseFloatParts (lineCap "#EXTINF:10.333,") = some (10, 333, 3) from
              by decide]
          rfl),
      List.filterMap_cons_none (show specDeclaredDuration "seg3.ts" = none from by decide),
      List.filterMap_nil, List.sum_cons, List.sum_cons, List.sum_cons, List.sum_nil]
    norm_num [ratOfParts]
  have h := c2_duration_prefix_sum none c2Example (by decide) (by decide)
    (by rw [hspec]; norm_num)
  rw [h, hspec]

/-! ### utils/hls-downloader: downloadHlsStream

The engine fetches the manifest, descends one level of master
indirection by taking the first non-comment non-blank line after the
first stream-declaration line, extracts all non-comment non-blank lines
of the media playlist as segment URLs (lines whose URL resolution throws
are skipped), then fetches the segments sequentially, checking the
cancellation signal before each fetch and reporting progress, and
finally concatenates the buffers.  Network fetches are oracles
(`none` models a failed response), URL resolution is an oracle (`none`
models a `new URL` throw), and the cancellation signal is a function of
the number of completed segments.  The run yields the event trace
(progress reports and started segment fetches) together with either the
payload bytes or a typed error. -/

inductive DlError where
  | manifestFetchFailed
  | noStreamsInMaster
  | invalidStreamUrl
  | mediaPlaylistFetchFailed
  | noSegments
  | aborted
  | segmentFetchFailed (index : Nat)
deriving DecidableEq

/-- The message thrown at each error site in the source. -/
def DlError.message : DlError → String
  | .manifestFetchFailed => "Failed to fetch manifest"
  | .noStreamsInMaster => "No streams found in master playlist"
  | .invalidStreamUrl => "Invalid URL"
  | .mediaPlaylistFetchFailed => "Failed to fetch media playlist"
  | .noSegments => "No segments found in manifest"
  | .aborted => "Download aborted"
  | .segmentFetchFailed i => "Failed to fetch segment " ++ Nat.repr i

inductive Ev where
  | progress (done total : Nat)
  | fetchSeg (url : String)
deriving DecidableEq

/-- The candidate test applied to a manifest line: nonempty after
trimming and not starting with a comment character. -/
def candidateLine (l : String) : Bool := !jsIsEmpty (jsTrim l) && !jsStartsWith l "#"

/-- First candidate line of a line list, trimmed. -/
def firstCandidate : List String → Option String
  | [] => none
  | l :: ls => if candidateLine l then some (jsTrim l) else firstCandidate ls

/-- The master-playlist scan: the first candidate line after the first
stream-declaration line. -/
def findStreamPath : List String → Option String
  | [] => none
  | l :: ls =>
    if jsStartsWith l "#EXT-X-STREAM-INF" then firstCandidate ls
    else findStreamPath ls

/-- Segment extraction: each candidate line is resolved against the
current manifest URL; lines whose resolution fails are skipped. -/
def extractSegments (resolve : String → String → Option String) (currentUrl : String)
    (lines : List String) : List String :=
  lines.filterMap fun l => if candidateLine l then resolve (jsTrim l) currentUrl else none

/-- The sequential segment-download loop: before each fetch check the
cancellation signal (a function of how many segments completed), then
report progress `(completed, total)`, then fetch. -/
def segLoop (fetchBytes : String → Option (List Nat)) (signal : Nat → Bool)
    (total : Nat) : List String → Nat → List Ev × Except DlError (List (List Nat))
  | [], _ => ([], .ok [])
  | u :: rest, i =>
    if signal i then ([], .error .aborted)
    else
      match fetchBytes u with
      | none => ([.progress i total, .fetchSeg u], .error (.segmentFetchFailed i))
      | some b =>
        let r := segLoop fetchBytes signal total rest (i + 1)
        (.progress i total :: .fetchSeg u :: r.1, r.2.map (b :: ·))

/-- The part of the engine operating on the extracted segment URL list:
empty-manifest check, download loop, final progress report, join. -/
def segmentsRun (fetchBytes : String → Option (List Nat)) (signal : Nat → Bool)
    (segmentUrls : List String) : List Ev × Except DlError (List Nat) :=
  if segmentUrls.isEmpty then ([], .error .noSegments)
  else
    let total := segmentUrls.length
    let r := segLoop fetchBytes signal total segmentUrls 0
    match r.2 with
    | .error e => (r.1, .error e)
    | .ok bufs => (r.1 ++ [.progress total total], .ok bufs.flatten)

/-- The media-playlist phase on the split line list. -/
def mediaPhase (fetchBytes : String → Option (List Nat)) (signal : Nat → Bool)
    (resolve : String → String → Option String) (currentUrl : String)
    (lines : List String) : List Ev × Except DlError (List Nat) :=
  segmentsRun fetchBytes signal (extractSegments resolve currentUrl lines)

/-- Manifest fetch and master-playlist resolution: produce the current
manifest URL and its text. -/
def resolvePhase (fetchText : String → Option String)
    (resolve : String → String → Option String) (url : String) :
    Except DlError (String × String) :=
  match fetchText url with
  | none => .error .manifestFetchFailed
  | some text0 =>
    if jsIncludes text0 "#EXT-X-STREAM-INF" then
      match findStreamPath (splitLines text0) with
      | none => .error .noStreamsInMaster
      | some streamPath =>
        match resolve streamPath url with
        | none => .error .invalidStreamUrl
        | some u2 =>
          match fetchText u2 with
          | none => .error .mediaPlaylistFetchFailed
          | some t2 => .ok (u2, t2)
    else .ok (url, text0)

/-- Embedding of `downloadHlsStream`. -/
def downloadHlsStream (fetchText : String → Option String)
    (fetchBytes : String → Option (List Nat))
    (resolve : String → String → Option String)
    (signal : Nat → Bool) (url : String) : List Ev × Except DlError (List Nat) :=
  match resolvePhase fetchText resolve url with
  | .error e => ([], .error e)
  | .ok (currentUrl, text) =>
    mediaPhase fetchBytes signal resolve currentUrl (splitLines text)

/-- The segment URLs whose fetch was started, in trace order. -/
def fetchedUrls (tr : List Ev) : List String :=
  tr.filterMap fun e =>
    match e with
    | .fetchSeg u => some u
    | _ => none

/-- The expected trace of a run of consecutive successful segment
fetches starting at completed-count `i`: before each fetch a progress
report with the current completed count. -/
def progressTrace (total : Nat) : Nat → List String → List Ev
  | _, [] => []
  | i, u :: rest => .progress i total :: .fetchSeg u :: progressTrace total (i + 1) rest

theorem segLoop_nil (fetchBytes : String → Option (List Nat)) (signal : Nat → Bool)
    (total i : Nat) : segLoop fetchBytes signal total [] i = ([], .ok []) := rfl

theorem segLoop_cons (fetchBytes : String → Option (List Nat)) (signal : Nat → Bool)
    (total : Nat) (u : String) (rest : List String) (i : Nat) :
    segLoop fetchBytes signal total (u :: rest) i =
      (if signal i then ([], .error .aborted)
      else
        match fetchBytes u with
        | none => ([.progress i total, .fetchSeg u], .error (.segmentFetchFailed i))
        | some b =>
          let r := segLoop fetchBytes signal total rest (i + 1)
          (.progress i total :: .fetchSeg u :: r.1, r.2.map (b :: ·))) := rfl

theorem segLoop_success (fetchBytes : String → Option (List Nat)) (signal : Nat → Bool)
    (total : Nat) (B : String → List Nat) :
    ∀ (us : List String) (i : Nat),
      (∀ k, signal k = false) →
      (∀ u ∈ us, fetchBytes u = some (B u)) →
      segLoop fetchBytes signal total us i = (progressTrace total i us, .ok (us.map B)) := by
  intro us
  induction us with
  | nil => intro i _ _; rfl
  | cons u rest ih =>
    intro i hsig hfb
    rw [segLoop_cons, if_neg (by simp [hsig i])]
    rw [hfb u (List.mem_cons_self u rest)]
    rw [ih (i + 1) hsig fun v hv => hfb v (List.mem_cons_of_mem u hv)]
    rfl

theorem segLoop_abort (fetchBytes : String → Option (List Nat)) (signal : Nat → Bool)
    (total : Nat) :
    ∀ (K : Nat) (us : List String) (i : Nat),
      (∀ k, k < K → signal (i + k) = false) →
      signal (i + K) = true →
      K < us.length →
      (∀ u ∈ us.take K, (fetchBytes u).isSome = true) →
      segLoop fetchBytes signal total us i =
        (progressTrace total i (us.take K), .error .aborted) := by
  intro K
  induction K with
  | zero =>
    intro us i _ hsigK hlen _
    cases us with
    | nil => simp at hlen
    | cons u rest =>
      rw [segLoop_cons, if_pos (by simpa using hsigK)]
      rfl
  | succ K ih =>
    intro us i hsig hsigK hlen hfb
    cases us with
    | nil => simp at hlen
    | cons u rest =>
      have h0 : signal i = false := by simpa using hsig 0 (Nat.succ_pos K)
      rw [segLoop_cons, if_neg (by simp [h0])]
      have hu : (fetchBytes u).isSome = true := by
        refine hfb u ?_
        simp [List.take_succ_cons]
      obtain ⟨b, hb⟩ := Option.isSome_iff_exists.mp hu
      rw [hb]
      have ihr := ih rest (i + 1)
        (fun k hk => by
          have := hsig (k + 1) (by omega)
          simpa [Nat.add_assoc, Nat.add_comm 1 k] using this)
        (by
          have : i + 1 + K = i + (K + 1) := by omega
          rw [this]
          exact hsigK)
        (by simpa using Nat.lt_of_succ_lt_succ hlen)
        (fun v hv => hfb v (by
          rw [List.take_succ_cons]
          exact List.mem_cons_of_mem u hv))
      rw [ihr]
      rfl

theorem segLoop_fail (fetchBytes : String → Option (List Nat)) (signal : Nat → Bool)
    (total : Nat) (hsig : ∀ k, signal k = false) :
    ∀ (good : List String) (i : Nat) (bad : String) (rest : List String),
      (∀ u ∈ good, (fetchBytes u).isSome = true) →
      fetchBytes bad = none →
      segLoop fetchBytes signal total (good ++ bad :: rest) i =
        (progressTrace total i good ++ [.progress (i + good.length) total, .fetchSeg bad],
          .error (.segmentFetchFailed (i + good.length))) := by
  intro good
  induction good with
  | nil =>
    intro i bad rest _ hbad
    rw [List.nil_append, segLoop_cons, if_neg (by simp [hsig i]), hbad]
    simp [progressTrace]
  | cons u gs ih =>
    intro i bad rest hg hbad
    rw [List.cons_append, segLoop_cons, if_neg (by simp [hsig i])]
    obtain ⟨b, hb⟩ := Option.isSome_iff_exists.mp (hg u (List.mem_cons_self u gs))
    rw [hb, ih (i + 1) bad rest (fun v hv => hg v (List.mem_cons_of_mem u hv)) hbad]
    have hidx : i + 1 + gs.length = i + (gs.length + 1) := by omega
    simp [progressTrace, hidx, Except.map]

theorem segLoop_no_noSegments (fetchBytes : String → Option (List Nat))
    (signal : Nat → Bool) (total : Nat) :
    ∀ (us : List String) (i : Nat),
      (segLoop fetchBytes signal total us i).2 ≠ .error .noSegments := by
  intro us
  induction us with
  | nil => intro i h; exact Except.noConfusion h
  | cons u rest ih =>
    intro i
    rw [segLoop_cons]
    by_cases hs : signal i = true
    · rw [if_pos hs]
      intro h
      exact DlError.noConfusion (Except.error.inj h)
    · rw [if_neg hs]
      cases hfb : fetchBytes u with
      | none =>
        intro h
        exact DlError.noConfusion (Except.error.inj h)
      | some b =>
        intro h
        have h2 : (segLoop fetchBytes signal total rest (i + 1)).2.map
            (fun x => b :: x) = .error .noSegments := h
        cases hr : (segLoop fetchBytes signal total rest (i + 1)).2 with
        | error e =>
          rw [hr] at h2
          simp only [Except.map] at h2
          exact ih (i + 1) (by rw [hr, Except.error.inj h2])
        | ok bufs =>
          rw [hr] at h2
          exact Except.noConfusion h2

theorem fetchedUrls_progressTrace (total : Nat) :
    ∀ (i : Nat) (us : List String), fetchedUrls (progressTrace total i us) = us := by
  intro i us
  induction us generalizing i with
  | nil => rfl
  | cons u rest ih =>
    have hstep : fetchedUrls (progressTrace total i (u :: rest)) =
        u :: fetchedUrls (progressTrace total (i + 1) rest) := rfl
    rw [hstep, ih (i + 1)]

theorem fetchedUrls_append (a b : List Ev) :
    fetchedUrls (a ++ b) = fetchedUrls a ++ fetchedUrls b := by
  unfold fetchedUrls
  rw [List.filterMap_append]

theorem downloadHlsStream_media (fetchText : String → Option String)
    (fetchBytes : String → Option (List Nat)) (resolve : String → String → Option String)
    (signal : Nat → Bool) (url text : String)
    (hman : fetchText url = some text)
    (hnm : jsIncludes text "#EXT-X-STREAM-INF" = false) :
    downloadHlsStream fetchText fetchBytes resolve signal url =
      mediaPhase fetchBytes signal resolve url (splitLines text) := by
  have hres : resolvePhase fetchText resolve url = .ok (url, text) := by
    unfold resolvePhase
    rw [hman]
    dsimp only
    rw [if_neg (by simp [hnm])]
  unfold downloadHlsStream
  rw [hres]

theorem segmentsRun_nonempty (fetchBytes : String → Option (List Nat))
    (signal : Nat → Bool) (us : List String) (hne : us ≠ []) :
    segmentsRun fetchBytes signal us =
      (let r := segLoop fetchBytes signal us.length us 0
       match r.2 with
       | .error e => (r.1, .error e)
       | .ok bufs => (r.1 ++ [.progress us.length us.length], .ok bufs.flatten)) := by
  unfold segmentsRun
  rw [if_neg (by simp [hne])]

theorem segmentsRun_ne_noSegments (fetchBytes : String → Option (List Nat))
    (signal : Nat → Bool) (us : List String) (hne : us ≠ []) :
    (segmentsRun fetchBytes signal us).2 ≠ .error .noSegments := by
  rw [segmentsRun_nonempty fetchBytes signal us hne]
  cases hsl : segLoop fetchBytes signal us.length us 0 with
  | mk tr r2 =>
    have h2 := segLoop_no_noSegments fetchBytes signal us.length us 0
    rw [hsl] at h2
    cases r2 with
    | error e =>
      dsimp only at h2 ⊢
      intro hc
      exact h2 (by rw [Except.error.inj hc])
    | ok bufs =>
      dsimp only
      exact fun hc => Except.noConfusion hc

/-- C1: for a media playlist, with no cancellation and all segment fetches
succeeding, the engine starts the segment fetches strictly in manifest
file order and the payload is exactly the concatenation of the segment
byte buffers in that order (so permuting the manifest lines permutes the
output blocks accordingly, since the conclusion holds for every extracted
URL list). -/
theorem c1_reconstruction_concatenates (fetchText : String → Option String)
    (fetchBytes : String → Option (List Nat)) (resolve : String → String → Option String)
    (signal : Nat → Bool) (url text : String) (us : List String) (B : String → List Nat)
    (hman : fetchText url = some text)
    (hnm : jsIncludes text "#EXT-X-STREAM-INF" = false)
    (hsig : ∀ k, signal k = false)
    (hus : extractSegments resolve url (splitLines text) = us)
    (hne : us ≠ [])
    (hfb : ∀ u ∈ us, fetchBytes u = some (B u)) :
    (downloadHlsStream fetchText fetchBytes resolve signal url).2 =
      .ok ((us.map B).flatten) ∧
    fetchedUrls (downloadHlsStream fetchText fetchBytes resolve signal url).1 = us := by
  rw [downloadHlsStream_media fetchText fetchBytes resolve signal url text hman hnm]
  have hmp : mediaPhase fetchBytes signal resolve url (splitLines text) =
      segmentsRun fetchBytes signal us := by
    unfold mediaPhase
    rw [hus]
  rw [hmp, segmentsRun_nonempty fetchBytes signal us hne,
    segLoop_success fetchBytes signal us.length B us 0 hsig hfb]
  constructor
  · rfl
  · show fetchedUrls (progressTrace us.length 0 us ++ [Ev.progress us.length us.length]) = us
    rw [fetchedUrls_append, fetchedUrls_progressTrace,
      show fetchedUrls [Ev.progress us.length us.length] = [] from rfl, List.append_nil]

/-- Concrete oracles for the reconstruction witnesses: a three-segment
media playlist with known segment bytes. -/
def witFetchText (u : String) : Option String :=
  if u == "m3u" then some "a.ts\nb.ts\nc.ts" else none

def witResolve (s _base : String) : Option String := some s

def witFetchBytes (u : String) : Option (List Nat) :=
  if u == "a.ts" then some [1, 2]
  else if u == "b.ts" then some [3]
  else if u == "c.ts" then some [4, 5]
  else none

def witB (u : String) : List Nat := (witFetchBytes u).getD []

def witSignalOff (_ : Nat) : Bool := false

/-- Witness for C1: on the concrete playlist the payload is the
byte-for-byte concatenation of the three segment buffers in order. -/
theorem c1_reconstruction_concatenates_witness :
    (downloadHlsStream witFetchText witFetchBytes witResolve witSignalOff "m3u").2 =
      .ok [1, 2, 3, 4, 5] ∧
    fetchedUrls (downloadHlsStream witFetchText witFetchBytes witResolve witSignalOff "m3u").1 =
      ["a.ts", "b.ts", "c.ts"] := by
  have h := c1_reconstruction_concatenates witFetchText witFetchBytes witResolve witSignalOff
    "m3u" "a.ts\nb.ts\nc.ts" ["a.ts", "b.ts", "c.ts"] witB
    (by decide) (by decide) (fun _ => rfl) (by decide) (by decide) (by decide)
  exact ⟨h.1.trans (congrArg Except.ok (by decide)), h.2⟩

/-- C3: when the cancellation signal becomes aborted after K of n
segments have completed (K < n), the run yields the cancellation error,
exactly the first K segment fetches were started and no further fetch is
started, and no byte payload is produced. -/
theorem c3_cancellation_aborts (fetchText : String → Option String)
    (fetchBytes : String → Option (List Nat)) (resolve : String → String → Option String)
    (signal : Nat → Bool) (url text : String) (us : List String) (K : Nat)
    (hman : fetchText url = some text)
    (hnm : jsIncludes text "#EXT-X-STREAM-INF" = false)
    (hus : extractSegments resolve url (splitLines text) = us)
    (hK : K < us.length)
    (hsig : ∀ k, k < K → signal k = false)
    (hsigK : signal K = true)
    (hfb : ∀ u ∈ us.take K, (fetchBytes u).isSome = true) :
    (downloadHlsStream fetchText fetchBytes resolve signal url).2 = .error .aborted ∧
    fetchedUrls (downloadHlsStream fetchText fetchBytes resolve signal url).1 =
      us.take K := by
  rw [downloadHlsStream_media fetchText fetchBytes resolve signal url text hman hnm]
  have hmp : mediaPhase fetchBytes signal resolve url (splitLines text) =
      segmentsRun fetchBytes signal us := by
    unfold mediaPhase
    rw [hus]
  have hne : us ≠ [] := by
    intro h
    rw [h] at hK
    simp at hK
  rw [hmp, segmentsRun_nonempty fetchBytes signal us hne,
    segLoop_abort fetchBytes signal us.length K us 0
      (fun k hk => by simpa using hsig k hk) (by simpa using hsigK) hK hfb]
  exact ⟨rfl, fetchedUrls_progressTrace us.length 0 (us.take K)⟩

def witFetchTextC3 (u : String) : Option String :=
  if u == "m3u" then some "a\nb\nc\nd\ne" else none

def witFetchBytesC3 (_ : String) : Option (List Nat) := some [7]

def witSignalC3 (k : Nat) : Bool := 2 ≤ k

/-- Witness for C3: cancelled after 2 of 5 segments, the run aborts with
the cancellation error and only the first two fetches were started. -/
theorem c3_cancellation_aborts_witness :
    (downloadHlsStream witFetchTextC3 witFetchBytesC3 witResolve witSignalC3 "m3u").2 =
      .error .aborted ∧
    fetchedUrls
        (downloadHlsStream witFetchTextC3 witFetchBytesC3 witResolve witSignalC3 "m3u").1 =
      ["a", "b"] := by
  have h := c3_cancellation_aborts witFetchTextC3 witFetchBytesC3 witResolve witSignalC3
    "m3u" "a\nb\nc\nd\ne" ["a", "b", "c", "d", "e"] 2
    (by decide) (by decide) (by decide) (by decide) (by decide) (by decide) (by decide)
  exact ⟨h.1, h.2.trans (by decide)⟩

/-- C8 (amended): progress is reported as the pair (segments completed so
far, total).  A report (k, n) with k ≥ 1 is issued immediately after the
k-th segment fetch succeeds and only then, and no report is issued for a
segment whose fetch fails; but in addition an initial report (0, n) is
issued before the first fetch is started.  On full success the trace is
(0,n), fetch 1, (1,n), fetch 2, ..., (n-1,n), fetch n, (n,n); when
segment fetch k+1 fails after k successes the trace ends with (k,n)
followed by the failing fetch and no further report. -/
theorem c8_progress_reporting (fetchText : String → Option String)
    (fetchBytes : String → Option (List Nat)) (resolve : String → String → Option String)
    (signal : Nat → Bool) (url text : String) (us : List String)
    (hman : fetchText url = some text)
    (hnm : jsIncludes text "#EXT-X-STREAM-INF" = false)
    (hsig : ∀ k, signal k = false)
    (hus : extractSegments resolve url (splitLines text) = us)
    (hne : us ≠ []) :
    ((∀ u ∈ us, (fetchBytes u).isSome = true) →
      (downloadHlsStream fetchText fetchBytes resolve signal url).1 =
        progressTrace us.length 0 us ++ [.progress us.length us.length]) ∧
    (∀ good bad rest, us = good ++ bad :: rest →
      (∀ u ∈ good, (fetchBytes u).isSome = true) →
      fetchBytes bad = none →
      (downloadHlsStream fetchText fetchBytes resolve signal url).1 =
        progressTrace us.length 0 good ++
          [.progress good.length us.length, .fetchSeg bad]) := by
  rw [downloadHlsStream_media fetchText fetchBytes resolve signal url text hman hnm]
  have hmp : mediaPhase fetchBytes signal resolve url (splitLines text) =
      segmentsRun fetchBytes signal us := by
    unfold mediaPhase
    rw [hus]
  rw [hmp, segmentsRun_nonempty fetchBytes signal us hne]
  constructor
  · intro hall
    rw [segLoop_success fetchBytes signal us.length (fun u => (fetchBytes u).getD []) us 0
      hsig (fun u hu => by
        obtain ⟨b, hb⟩ := Option.isSome_iff_exists.mp (hall u hu)
        simp [hb])]
  · intro good bad rest hdecomp hg hbad
    subst hdecomp
    rw [segLoop_fail fetchBytes signal (good ++ bad :: rest).length hsig good 0 bad rest
      hg hbad]
    simp [Nat.zero_add]

/-- Witness for the amended C8: the full-success trace on the concrete
three-segment playlist. -/
theorem c8_progress_reporting_witness :
    (downloadHlsStream witFetchText witFetchBytes witResolve witSignalOff "m3u").1 =
      [Ev.progress 0 3, Ev.fetchSeg "a.ts", Ev.progress 1 3, Ev.fetchSeg "b.ts",
        Ev.progress 2 3, Ev.fetchSeg "c.ts", Ev.progress 3 3] := by
  have h := (c8_progress_reporting witFetchText witFetchBytes witResolve witSignalOff
    "m3u" "a.ts\nb.ts\nc.ts" ["a.ts", "b.ts", "c.ts"]
    (by decide) (by decide) (fun _ => rfl) (by decide) (by decide)).1 (by decide)
  exact h.trans (by decide)

/-- Counterexample to C8 as stated: in the concrete run the very first
event of the trace is the progress report (0, 3), issued before any
segment fetch is started, contradicting the sentence that no progress
report is issued before the first successful segment fetch. -/
theorem c8_initial_report_counterexample :
    (downloadHlsStream witFetchText witFetchBytes witResolve witSignalOff "m3u").1.head? =
      some (Ev.progress 0 3) ∧
    fetchedUrls
        ((downloadHlsStream witFetchText witFetchBytes witResolve witSignalOff
          "m3u").1.take 1) = [] := by
  decide

/-- C10: a non-comment, non-blank manifest line whose URL resolution
fails is silently skipped: the run on a line list containing such a line
equals the run on the list with that line removed; and the
empty-manifest error is raised exactly when no line yields a resolvable
segment URL. -/
theorem c10_unresolvable_skipped (fetchBytes : String → Option (List Nat))
    (signal : Nat → Bool) (resolve : String → String → Option String)
    (currentUrl : String) (lines l1 l2 : List String) (bad : String)
    (hbad : candidateLine bad = true)
    (hres : resolve (jsTrim bad) currentUrl = none) :
    mediaPhase fetchBytes signal resolve currentUrl (l1 ++ bad :: l2) =
      mediaPhase fetchBytes signal resolve currentUrl (l1 ++ l2) ∧
    ((mediaPhase fetchBytes signal resolve currentUrl lines).2 = .error .noSegments ↔
      extractSegments resolve currentUrl lines = []) := by
  constructor
  · unfold mediaPhase
    congr 1
    unfold extractSegments
    rw [List.filterMap_append, List.filterMap_append,
      List.filterMap_cons_none (by simp [hbad, hres])]
  · show (segmentsRun fetchBytes signal (extractSegments resolve currentUrl lines)).2 =
        .error .noSegments ↔ extractSegments resolve currentUrl lines = []
    constructor
    · intro h
      by_contra he
      exact segmentsRun_ne_noSegments fetchBytes signal _ he h
    · intro h
      rw [h]
      rfl

def witResolveC10 (s _base : String) : Option String :=
  if s == "bad" then none else some s

/-- Witness for C10 on a concrete line list: the unresolvable line is
skipped without changing the run, and the empty-manifest error is
equivalent to extraction being empty. -/
theorem c10_unresolvable_skipped_witness :
    mediaPhase witFetchBytes witSignalOff witResolveC10 "m3u" ["a.ts", "bad", "b.ts"] =
      mediaPhase witFetchBytes witSignalOff witResolveC10 "m3u" ["a.ts", "b.ts"] ∧
    ((mediaPhase witFetchBytes witSignalOff witResolveC10 "m3u"
        ["a.ts", "bad", "b.ts"]).2 = .error .noSegments ↔
      extractSegments witResolveC10 "m3u" ["a.ts", "bad", "b.ts"] = []) :=
  c10_unresolvable_skipped witFetchBytes witSignalOff witResolveC10 "m3u"
    ["a.ts", "bad", "b.ts"] ["a.ts"] ["b.ts"] "bad" (by decide) (by decide)

end MediaVue
